import Mathlib

/-!
Verification model of the state-history plugin
(`src/plugins/state_history_plugin/state_history_plugin.cpp`).

The model is a shallow embedding: bytes are `Nat` (values < 256), 32-byte
block / transaction identifiers are `Nat`, machine integers are `Nat` with
explicit `% 2^32` where truncation matters.  Serialization of chain
entities (`fc::raw::pack` of rows, traces and blocks) is opaque in the
spec, so the packers are passed as explicit function parameters, exactly
as the C++ passes `pack_row` / `pack_contract_row` into `process_table`.
Fallible C++ code (EOS_ASSERT, throwing accessors, null dereference)
is modelled with `Except`.
-/

namespace StateHistory

/-- Errors raised by the modelled code: `gap`/`underflow` from the log
write contract, `too_big` from the 2^32-1 payload size assertions,
`inconsistent` from throwing index accessors, `null_deref` for the
unchecked pointer dereference in `get_block`. -/
inductive LogErr where
  | gap
  | underflow
  | too_big
  | inconsistent
  | null_deref
deriving DecidableEq, Repr

/-- Little-endian encoding of a `u32` size value as four bytes, as
written by `stream.write((char*)&s, sizeof(s))`. -/
def encU32 (n : Nat) : List Nat :=
  [n % 256, n / 256 % 256, n / 256 / 256 % 256, n / 256 / 256 / 256 % 256]

/-- Little-endian decoding of a `u32` from the front of a byte list, as
read by `stream.read((char*)&s, sizeof(s))`; `none` when fewer than four
bytes remain. -/
def decU32 : List Nat → Option (Nat × List Nat)
  | b0 :: b1 :: b2 :: b3 :: rest => some (b0 + 256 * (b1 + 256 * (b2 + 256 * b3)), rest)
  | _ => none

/-- The guard `bin.size() == (uint32_t)bin.size()` of `store_traces` /
`store_chain_state`: the `size_t` value equals its truncation to 32 bits. -/
def fits_u32 (n : Nat) : Bool :=
  n % 4294967296 == n

/-- History-log entry header (`history_log_header`, spec section 3):
block number, 32-byte block id, payload byte count. -/
structure HistoryLogHeader where
  block_num : Nat
  block_id : Nat
  payload_size : Nat
deriving DecidableEq, Repr

/-- One stored log entry: the identifying header fields plus the payload
bytes that follow the header in the data file. -/
structure LogEntry where
  block_id : Nat
  previous_id : Nat
  payload : List Nat
deriving DecidableEq, Repr

/-- Modelled from the spec: the history log (`history_log.hpp` is not in
src/; spec sections 3 and 4.1).  Slot `k` of `entries` holds block
`begin_block + k`; the file/index representation is abstracted to the
entry list. -/
structure HistoryLog where
  begin_block : Nat
  entries : List LogEntry
deriving DecidableEq, Repr

/-- `end_block = begin_block + record_count` (spec section 3); an empty
log has `begin_block = end_block`. -/
def HistoryLog.end_block (log : HistoryLog) : Nat :=
  log.begin_block + log.entries.length

/-- A freshly opened log: `begin_block == end_block == 0`. -/
def HistoryLog.emptyLog : HistoryLog := ⟨0, []⟩

/-- The block ids stored in a log, by slot. -/
def logIds (log : HistoryLog) : List Nat :=
  log.entries.map LogEntry.block_id

/-- The payload-independent part of a log's state: `begin_block` and the
stored block ids.  The write algorithm's control flow depends only on
this. -/
def HistoryLog.shape (log : HistoryLog) : Nat × List Nat :=
  (log.begin_block, logIds log)

/-- Modelled from the spec: the reorg walk of section 4.1, on slot
numbers.  Starting from slot `k = block_num - begin_block`, walk down
while `k > 0` and the stored block at slot `k-1` does not carry id
`prev`. -/
def walkSlot (ids : List Nat) (prev : Nat) : Nat → Nat
  | 0 => 0
  | k + 1 => if ids.getD k 0 == prev then k + 1 else walkSlot ids prev k

/-- Modelled from the spec: `history_log::write_entry` (section 4.1;
`history_log.hpp` is not in src/).  Empty log: start at
`header.block_num`.  Non-empty: fail with `gap` past `end_block`, with
`underflow` below `begin_block`; otherwise truncate by the reorg walk and
append, resetting to a fresh log when everything was truncated. -/
def HistoryLog.write_entry (log : HistoryLog) (h : HistoryLogHeader) (prev : Nat)
    (payload : List Nat) : Except LogErr HistoryLog :=
  if log.entries.isEmpty then
    .ok ⟨h.block_num, [⟨h.block_id, prev, payload⟩]⟩
  else if log.end_block < h.block_num then
    .error .gap
  else if h.block_num < log.begin_block then
    .error .underflow
  else if (log.entries.take (walkSlot (logIds log) prev (h.block_num - log.begin_block))).isEmpty
      then
    .ok ⟨h.block_num, [⟨h.block_id, prev, payload⟩]⟩
  else
    .ok ⟨log.begin_block,
         log.entries.take (walkSlot (logIds log) prev (h.block_num - log.begin_block))
           ++ [⟨h.block_id, prev, payload⟩]⟩

/-- The action of `write_entry` on a log's shape (`begin_block` and the
stored id list): the write algorithm never reads payloads, so its effect
on the range is a function of the shape alone. -/
def write_shape (bb : Nat) (ids : List Nat) (num bid prev : Nat) :
    Except LogErr (Nat × List Nat) :=
  if ids.isEmpty then
    .ok (num, [bid])
  else if bb + ids.length < num then
    .error .gap
  else if num < bb then
    .error .underflow
  else if (ids.take (walkSlot ids prev (num - bb))).isEmpty then
    .ok (num, [bid])
  else
    .ok (bb, ids.take (walkSlot ids prev (num - bb)) ++ [bid])

/-- Modelled from the spec: `history_log::get_entry` (section 4.1) —
the entry stored for a block number, `none` out of range. -/
def HistoryLog.get_entry (log : HistoryLog) (block_num : Nat) : Option LogEntry :=
  log.entries[block_num - log.begin_block]?

/-- The in-range body of `get_data` (src lines 58-65): read the u32
size `s` from the entry's payload, then `s` bytes.  `Except.error`
models the stream read throwing (too few bytes; reading beyond the
payload is undefined at the log layer). -/
def readEntryBytes (payload : List Nat) : Except Unit (Option (List Nat)) :=
  match decU32 payload with
  | none => .error ()
  | some (s, rest) => if s ≤ rest.length then .ok (some (rest.take s)) else .error ()

/-- The entry fetch of `get_data`: `log.get_entry` must return an entry
for an in-range block; a missing slot is index corruption. -/
def readPayload : Option LogEntry → Except Unit (Option (List Nat))
  | none => .error ()
  | some e => readEntryBytes e.payload

/-- `state_history_plugin_impl::get_data` (src lines 55-66): absent when
`block_num` is outside `[begin_block, end_block)`; otherwise read a u32
size from the entry payload, then that many bytes. -/
def get_data (log : HistoryLog) (block_num : Nat) : Except Unit (Option (List Nat)) :=
  if block_num < log.begin_block ∨ log.end_block ≤ block_num then
    .ok none
  else
    readPayload (log.get_entry block_num)

/-- A log all of whose entries carry a valid `u32`-prefixed payload, as
every entry written by `store_traces` / `store_chain_state` does. -/
def wfLog (log : HistoryLog) : Prop :=
  ∀ e ∈ log.entries, ∃ s rest, decU32 e.payload = some (s, rest) ∧ s ≤ rest.length

/-! ## Chain database model (chainbase indices and undo frames) -/

/-- Modelled from the spec: a chainbase row (spec sections 4.2 and
glossary; the chainbase headers are not in src/).  `id` is the row's
`id._id` field, `data` the opaque remaining content. -/
structure TableRow where
  id : Nat
  data : List Nat
deriving DecidableEq, Repr

/-- Modelled from the spec: the top undo frame of a chainbase index
(glossary "undo frame"): pre-images of modified rows, ids of new rows,
pre-images of removed rows. -/
structure UndoFrame where
  old_values : List (Nat × TableRow)
  new_ids : List Nat
  removed_values : List (Nat × TableRow)
deriving DecidableEq, Repr

/-- Modelled from the spec: one chainbase index — its live rows in index
order (`index.indices()`) and its undo stack (`index.stack()`, last
element on top). -/
structure TableIndex where
  rows : List TableRow
  stack : List UndoFrame
deriving DecidableEq, Repr

/-- Lookup of a live row by id (`index.get(id)` — which throws when the
id is not live; the caller models the throw). -/
def getRow (idx : TableIndex) (i : Nat) : Option TableRow :=
  idx.rows.find? (fun r => r.id == i)

/-- The live row for an id, defaulting when absent (used only under a
liveness hypothesis). -/
def getRowD (idx : TableIndex) (i : Nat) : TableRow :=
  (getRow idx i).getD ⟨0, []⟩

/-- Modelled from the spec: a table delta (spec section 3): table tag
plus rows `{present : bool, data : bytes}` (the struct lives in the
plugin header, which is not in src/). -/
structure TableDelta where
  name : String
  rows : List (Bool × List Nat)
deriving DecidableEq, Repr

/-- `index.get(id)` followed by packing, as in the `old_values` /
`new_ids` loops of `process_table` (src lines 339-346); a missing live
row models the throwing accessor. -/
def liveRowEntry (idx : TableIndex) (pack : TableRow → List Nat) (i : Nat) :
    Except LogErr (Bool × List Nat) :=
  match getRow idx i with
  | some row => .ok (true, pack row)
  | none => .error .inconsistent

/-- `process_table` (src lines 321-350).  Fresh: emit nothing for an
empty index, else one delta over every live row; the C++ passes
`row.id._id` where the `present : bool` field is expected, so the stored
flag is the C++ integral-to-bool conversion `id != 0`.  Not fresh: emit
nothing when the undo stack is empty or the top frame is empty, else
current rows for `old_values` and `new_ids` (`present = true`) followed
by captured pre-images for `removed_values` (`present = false`). -/
def process_table (name : String) (idx : TableIndex) (pack : TableRow → List Nat)
    (fresh : Bool) : Except LogErr (Option TableDelta) :=
  if fresh then
    if idx.rows.isEmpty then
      .ok none
    else
      .ok (some { name := name, rows := idx.rows.map (fun r => (r.id != 0, pack r)) })
  else
    match idx.stack.getLast? with
    | none => .ok none
    | some undo =>
      if undo.old_values.isEmpty && undo.new_ids.isEmpty && undo.removed_values.isEmpty then
        .ok none
      else
        match undo.old_values.mapM (fun p => liveRowEntry idx pack p.1) with
        | .error e => .error e
        | .ok olds =>
          match undo.new_ids.mapM (fun i => liveRowEntry idx pack i) with
          | .error e => .error e
          | .ok news =>
            .ok (some { name := name,
                        rows := olds ++ news
                             ++ undo.removed_values.map (fun p => ((false : Bool), pack p.2)) })

/-- Modelled from the spec: the chain database as the sixteen indices
the extractor reads (spec section 4.2); the database type itself lives
in the chain engine, which is out of scope. -/
structure Database where
  account : TableIndex
  contract_table : TableIndex
  contract_row : TableIndex
  contract_index64 : TableIndex
  contract_index128 : TableIndex
  contract_index256 : TableIndex
  contract_index_double : TableIndex
  contract_index_long_double : TableIndex
  global_property : TableIndex
  generated_transaction : TableIndex
  permission : TableIndex
  permission_link : TableIndex
  resource_limits : TableIndex
  resource_usage : TableIndex
  resource_limits_state : TableIndex
  resource_limits_config : TableIndex
deriving DecidableEq, Repr

/-- The sixteen `process_table` calls of `store_chain_state` (src lines
352-371), in source order, each with its index and its packer (`pack`
for plain rows, `pack_c` for contract-table-scoped rows).  The packers
are parameters because row serialization is opaque (spec section 1). -/
def dbTables (db : Database) (pack pack_c : TableRow → List Nat) :
    List (String × TableIndex × (TableRow → List Nat)) :=
  [("account", db.account, pack),
   ("contract_table", db.contract_table, pack),
   ("contract_row", db.contract_row, pack_c),
   ("contract_index64", db.contract_index64, pack_c),
   ("contract_index128", db.contract_index128, pack_c),
   ("contract_index256", db.contract_index256, pack_c),
   ("contract_index_double", db.contract_index_double, pack_c),
   ("contract_index_long_double", db.contract_index_long_double, pack_c),
   ("global_property", db.global_property, pack),
   ("generated_transaction", db.generated_transaction, pack),
   ("permission", db.permission, pack),
   ("permission_link", db.permission_link, pack),
   ("resource_limits", db.resource_limits, pack),
   ("resource_usage", db.resource_usage, pack),
   ("resource_limits_state", db.resource_limits_state, pack),
   ("resource_limits_config", db.resource_limits_config, pack)]

/-- Runs `process_table` over the table list in order, collecting the
deltas that were emitted (the `deltas` vector of `store_chain_state`). -/
def collectDeltas (tables : List (String × TableIndex × (TableRow → List Nat)))
    (fresh : Bool) : Except LogErr (List TableDelta) :=
  match tables with
  | [] => .ok []
  | t :: rest =>
    match process_table t.1 t.2.1 t.2.2 fresh with
    | .error e => .error e
    | .ok d =>
      match collectDeltas rest fresh with
      | .error e => .error e
      | .ok ds =>
        match d with
        | none => .ok ds
        | some x => .ok (x :: ds)

/-! ## Plugin state, trace buffer, block ingestion -/

/-- A transaction trace (`transaction_trace_ptr`): transaction id,
whether a receipt is attached, opaque remaining content. -/
structure Trace where
  id : Nat
  has_receipt : Bool
  data : List Nat
deriving DecidableEq, Repr

/-- `std::map` keyed lookup on the trace buffer (`traces.find(id)`). -/
def lookupTrace (m : List (Nat × Trace)) (k : Nat) : Option Trace :=
  (m.find? (fun p => p.1 == k)).map (fun p => p.2)

/-- `std::map` keyed insertion (`traces[id] = p`): overwrite the entry
with an equal key, else add a new entry. -/
def mapInsert : List (Nat × Trace) → Nat → Trace → List (Nat × Trace)
  | [], k, v => [(k, v)]
  | (k', v') :: rest, k, v =>
    if k == k' then (k, v) :: rest else (k', v') :: mapInsert rest k v

/-- The block fields `on_accepted_block` reads from `block_state`:
number, id, parent id, and the ids of the block's transactions in block
order (`block_state->trxs`). -/
structure BlockSummary where
  block_num : Nat
  block_id : Nat
  previous : Nat
  trxs : List Nat
deriving DecidableEq, Repr

/-- The plugin state the ingestion path touches: the trace buffer and
the three logs (src lines 44-46, 53). -/
structure PluginState where
  traces : List (Nat × Trace)
  block_state_log : HistoryLog
  trace_log : HistoryLog
  chain_state_log : HistoryLog
deriving DecidableEq, Repr

/-- `on_applied_transaction` (src lines 251-254): store the trace under
its id when it carries a receipt, else discard. -/
def on_applied_transaction (st : PluginState) (p : Trace) : PluginState :=
  if p.has_receipt then { st with traces := mapInsert st.traces p.id p } else st

/-- `store_block_state` (src lines 263-265): an empty stub (`// todo`). -/
def store_block_state (st : PluginState) (_b : BlockSummary) : PluginState :=
  st

/-- The trace-collection loop of `store_traces` (src lines 268-276):
for each transaction of the block in order, take its buffered trace,
skipping missing or receiptless entries. -/
def collect_block_traces (buf : List (Nat × Trace)) (trxs : List Nat) : List Trace :=
  trxs.filterMap fun tid =>
    match lookupTrace buf tid with
    | some t => if t.has_receipt then some t else none
    | none => none

/-- `store_traces` (src lines 267-291): collect the block's traces,
clear the buffer, serialize (the serializer `pT` is an opaque
parameter), assert the size fits in a u32, then write a log entry whose
payload is the u32 size followed by the bytes. -/
def store_traces (pT : List Trace → List Nat) (st : PluginState) (b : BlockSummary) :
    Except LogErr PluginState :=
  let collected := collect_block_traces st.traces b.trxs
  let st1 : PluginState := { st with traces := [] }
  let bin := pT collected
  if fits_u32 bin.length then
    match st1.trace_log.write_entry ⟨b.block_num, b.block_id, 4 + bin.length⟩
        b.previous (encU32 bin.length ++ bin) with
    | .ok log2 => .ok { st1 with trace_log := log2 }
    | .error e => .error e
  else
    .error .too_big

/-- The `fresh` flag of `store_chain_state` (src line 294). -/
def freshFlag (st : PluginState) : Bool :=
  st.chain_state_log.begin_block == st.chain_state_log.end_block

/-- `store_chain_state` (src lines 293-384): compute the per-table
deltas (fresh when the chain-state log is empty), serialize them
(opaque parameter `pD`), assert the size fits in a u32, then write a log
entry whose payload is the u32 size followed by the bytes. -/
def store_chain_state (pD : List TableDelta → List Nat) (pack pack_c : TableRow → List Nat)
    (db : Database) (st : PluginState) (b : BlockSummary) : Except LogErr PluginState :=
  match collectDeltas (dbTables db pack pack_c) (freshFlag st) with
  | .error e => .error e
  | .ok deltas =>
    if fits_u32 (pD deltas).length then
      match st.chain_state_log.write_entry ⟨b.block_num, b.block_id, 4 + (pD deltas).length⟩
          b.previous (encU32 (pD deltas).length ++ pD deltas) with
      | .ok log2 => .ok { st with chain_state_log := log2 }
      | .error e => .error e
    else
      .error .too_big

/-- `on_accepted_block` (src lines 256-261): store block state (stub),
then traces, then chain state. -/
def on_accepted_block (pT : List Trace → List Nat) (pD : List TableDelta → List Nat)
    (pack pack_c : TableRow → List Nat) (db : Database) (st : PluginState)
    (b : BlockSummary) : Except LogErr PluginState :=
  match store_traces pT (store_block_state st b) b with
  | .error e => .error e
  | .ok st1 => store_chain_state pD pack pack_c db st1 b

/-- `get_block` (src lines 68-71): fetch the block by number and pack
it, unconditionally dereferencing the fetched pointer — a missing block
(null pointer) is a crash, modelled as `.error .null_deref`; the result
field is never left absent. -/
def get_block (fetch : Nat → Option (List Nat)) (packBlock : List Nat → List Nat)
    (block_num : Nat) : Except LogErr (Option (List Nat)) :=
  match fetch block_num with
  | some blk => .ok (some (packBlock blk))
  | none => .error .null_deref

/-! ## Session send queue -/

/-- The send-queue state of one session (src lines 76-78, 129-146):
`sending` is true while one asynchronous write is outstanding,
`send_queue` the FIFO of pending frames, `sentAbi` whether the first
(text) frame went out, `written` the frames issued to the socket in
order (the observation of the model). -/
structure SessionQ where
  sending : Bool
  sentAbi : Bool
  send_queue : List (List Nat)
  written : List (List Nat)
deriving DecidableEq, Repr

/-- The parameterless `send()` (src lines 129-146): do nothing when a
write is outstanding or the queue is empty; otherwise mark sending, mark
the ABI sent, and issue an asynchronous write of the queue head. -/
def trySend (s : SessionQ) : SessionQ :=
  if s.sending || s.send_queue.isEmpty then s
  else { s with
         sending := true
         sentAbi := true
         written := s.written ++ [s.send_queue.headD []] }

/-- Events touching the queue: `enqueue m` is `send(obj)` pushing one
response frame (src lines 118-127); `complete` is the `async_write`
completion handler (src lines 137-145), which erases the queue head,
clears `sending`, and calls `send()` again. -/
inductive SessionOp where
  | enqueue (m : List Nat)
  | complete
deriving DecidableEq, Repr

/-- One step of the session send machine. -/
def sessionStep (s : SessionQ) : SessionOp → SessionQ
  | .enqueue m => trySend { s with send_queue := s.send_queue ++ [m] }
  | .complete =>
    if s.sending then
      trySend { s with send_queue := s.send_queue.tail, sending := false }
    else
      s

/-- The initial session queue state. -/
def sessionInit : SessionQ := ⟨false, false, [], []⟩

/-- Run a sequence of queue events from the initial state. -/
def runSession (ops : List SessionOp) : SessionQ :=
  ops.foldl sessionStep sessionInit

/-- The response frames enqueued by an event sequence, in order. -/
def enqueuedOf (ops : List SessionOp) : List (List Nat) :=
  ops.filterMap fun op =>
    match op with
    | .enqueue m => some m
    | .complete => none

/-! ## Concrete inputs used by witnesses and counterexamples -/

/-- An index with no rows and no undo stack. -/
def emptyIdx : TableIndex := ⟨[], []⟩

/-- A database whose sixteen indices are all empty. -/
def emptyDb : Database :=
  ⟨emptyIdx, emptyIdx, emptyIdx, emptyIdx, emptyIdx, emptyIdx, emptyIdx, emptyIdx,
   emptyIdx, emptyIdx, emptyIdx, emptyIdx, emptyIdx, emptyIdx, emptyIdx, emptyIdx⟩

/-- The plugin state right after a cold open: empty buffer, three empty
logs. -/
def st00 : PluginState := ⟨[], HistoryLog.emptyLog, HistoryLog.emptyLog, HistoryLog.emptyLog⟩

/-- A first accepted block: number 2, id 102, parent 101, no
transactions. -/
def blk2 : BlockSummary := ⟨2, 102, 101, []⟩

/-- An accepted block carrying one transaction with id 9. -/
def blk9 : BlockSummary := ⟨2, 102, 101, [9]⟩

/-- A row packer projecting the opaque row content. -/
def pkData (r : TableRow) : List Nat := r.data

/-- A trace serializer producing no bytes. -/
def nilPT (_ : List Trace) : List Nat := []

/-- A delta serializer producing no bytes. -/
def nilPD (_ : List TableDelta) : List Nat := []

/-- A serialized blob one byte too large for the u32 size field. -/
def bigBin : List Nat := List.replicate 4294967296 0

/-- A trace serializer whose output exceeds the u32 size limit. -/
def bigPT (_ : List Trace) : List Nat := bigBin

/-- A delta serializer whose output exceeds the u32 size limit. -/
def bigPD (_ : List TableDelta) : List Nat := bigBin

/-- The plugin state after `on_accepted_block` on `st00` and block 2
with empty serializers: buffer empty, block-state log untouched, trace
and chain-state logs holding block 2 with a zero-size payload. -/
def afterBlk2 : PluginState :=
  ⟨[], HistoryLog.emptyLog, ⟨2, [⟨102, 101, [0, 0, 0, 0]⟩]⟩, ⟨2, [⟨102, 101, [0, 0, 0, 0]⟩]⟩⟩

/-- A database whose account table holds a single live row with id 0
(the first chainbase object of a table has `id._id = 0`). -/
def dbIdZero : Database := { emptyDb with account := ⟨[⟨0, [7]⟩], []⟩ }

/-- A database with live rows of non-zero id in `account` and
`permission`. -/
def dbFresh : Database :=
  { emptyDb with
    account := ⟨[⟨1, [3]⟩, ⟨2, [4]⟩], []⟩
    permission := ⟨[⟨5, [6]⟩], []⟩ }

/-- An index for the non-fresh case: rows 1 and 2 live, top undo frame
recording row 1 modified, row 2 new, row 3 removed. -/
def idxUpd : TableIndex :=
  ⟨[⟨1, [5]⟩, ⟨2, [6]⟩], [⟨[(1, ⟨1, [4]⟩)], [2], [(3, ⟨3, [7]⟩)]⟩]⟩

/-- A one-entry log at block 5 whose payload is a two-byte blob behind
its u32 size. -/
def logOne : HistoryLog := ⟨5, [⟨1, 0, [2, 0, 0, 0, 9, 9]⟩]⟩

/-- A one-entry log at block 5 whose payload is a zero u32 size and
nothing else. -/
def logZero : HistoryLog := ⟨5, [⟨1, 0, [0, 0, 0, 0]⟩]⟩

/-- A plugin state whose trace buffer holds the receipted trace of
transaction 9. -/
def st9 : PluginState :=
  ⟨[(9, ⟨9, true, [1]⟩)], HistoryLog.emptyLog, HistoryLog.emptyLog, HistoryLog.emptyLog⟩

/-- Three session events: two responses enqueued, then the first write
completes. -/
def ops3 : List SessionOp := [.enqueue [1], .enqueue [2], .complete]

/-! ## Helper lemmas -/

theorem fits_u32_true_iff (n : Nat) : fits_u32 n = true ↔ n ≤ 4294967295 := by
  unfold fits_u32
  simp only [beq_iff_eq]
  constructor
  · intro h
    have hlt : n % 4294967296 < 4294967296 := Nat.mod_lt _ (by decide)
    omega
  · intro h
    exact Nat.mod_eq_of_lt (by omega)

theorem lookupTrace_mapInsert_self (m : List (Nat × Trace)) (k : Nat) (v : Trace) :
    lookupTrace (mapInsert m k v) k = some v := by
  induction m with
  | nil => simp [mapInsert, lookupTrace]
  | cons p rest ih =>
    obtain ⟨k1, v1⟩ := p
    by_cases h : k = k1
    · subst h
      simp [mapInsert, lookupTrace]
    · simpa [mapInsert, lookupTrace, h, Ne.symm h] using ih

theorem mem_keys_mapInsert (m : List (Nat × Trace)) (k : Nat) (v : Trace) (a : Nat) :
    a ∈ (mapInsert m k v).map Prod.fst ↔ a = k ∨ a ∈ m.map Prod.fst := by
  induction m with
  | nil => simp [mapInsert]
  | cons p rest ih =>
    obtain ⟨k1, v1⟩ := p
    by_cases h : k = k1
    · subst h
      simp [mapInsert]
    · simp only [mapInsert, beq_iff_eq]
      rw [if_neg h]
      simp only [List.map_cons, List.mem_cons, ih]
      tauto

theorem nodup_keys_mapInsert (m : List (Nat × Trace)) (k : Nat) (v : Trace)
    (h : (m.map Prod.fst).Nodup) : ((mapInsert m k v).map Prod.fst).Nodup := by
  induction m with
  | nil => simp [mapInsert]
  | cons p rest ih =>
    obtain ⟨k1, v1⟩ := p
    simp only [List.map_cons, List.nodup_cons] at h
    by_cases hk : k = k1
    · subst hk
      simp only [mapInsert, beq_self_eq_true, if_true, List.map_cons, List.nodup_cons]
      exact h
    · simp only [mapInsert, beq_iff_eq]
      rw [if_neg hk]
      simp only [List.map_cons, List.nodup_cons]
      refine ⟨?_, ih h.2⟩
      intro hmem
      rcases (mem_keys_mapInsert rest k v k1).mp hmem with h1 | h1
      · exact hk h1.symm
      · exact h.1 h1

/-! ## Claim theorems -/

/-- C5: for every log and block number, the `get_data` result is absent
exactly when the block number is outside `[begin_block, end_block)`; in
range it reads the u32 size from the entry payload and returns exactly
that many following bytes (for a well-formed log, whose entries all
carry a valid size-prefixed payload). -/
theorem get_data_spec (log : HistoryLog) (n : Nat) (hwf : wfLog log) :
    (get_data log n = .ok none ↔ (n < log.begin_block ∨ log.end_block ≤ n)) ∧
    (∀ e s rest, log.get_entry n = some e → decU32 e.payload = some (s, rest) →
      ¬(n < log.begin_block ∨ log.end_block ≤ n) →
      get_data log n = .ok (some (rest.take s)) ∧ (rest.take s).length = s) := by
  constructor
  · by_cases h : n < log.begin_block ∨ log.end_block ≤ n
    · simp [get_data, h]
    · have hlt : n - log.begin_block < log.entries.length := by
        unfold HistoryLog.end_block at h
        omega
      have hsome : log.entries[n - log.begin_block]? = some (log.entries[n - log.begin_block]) :=
        List.getElem?_eq_getElem hlt
      have hmem : log.entries[n - log.begin_block] ∈ log.entries := List.getElem_mem hlt
      obtain ⟨s, rest, hdec, hlen⟩ := hwf _ hmem
      rw [get_data, if_neg h]
      unfold HistoryLog.get_entry
      rw [hsome]
      simp [readPayload, readEntryBytes, hdec, hlen, h]
  · intro e s rest hentry hdec h
    have hmem : e ∈ log.entries := List.getElem?_mem hentry
    obtain ⟨s2, rest2, hdec2, hlen2⟩ := hwf e hmem
    rw [hdec] at hdec2
    have hs : s = s2 ∧ rest = rest2 := by
      simpa only [Option.some.injEq, Prod.mk.injEq] using hdec2
    obtain ⟨rfl, rfl⟩ := hs
    rw [get_data, if_neg h, hentry]
    constructor
    · simp [readPayload, readEntryBytes, hdec, hlen2]
    · simp [List.length_take, Nat.min_eq_left hlen2]

/-- C5 witness: on a one-entry log at block 5 holding two bytes behind a
size of 2, `get_data` is absent at 4 and 6 and yields the two bytes at
5. -/
theorem get_data_spec_witness :
    (get_data logOne 4 = .ok none ∧ get_data logOne 6 = .ok none) ∧
    get_data logOne 5 = .ok (some [9, 9]) := by
  have hwf : wfLog logOne := by
    intro e he
    simp only [logOne, List.mem_singleton] at he
    subst he
    exact ⟨2, [9, 9], rfl, by decide⟩
  have h4 := (get_data_spec logOne 4 hwf).1
  have h6 := (get_data_spec logOne 6 hwf).1
  have h5 := (get_data_spec logOne 5 hwf).2 ⟨1, 0, [2, 0, 0, 0, 9, 9]⟩ 2 [9, 9]
    (by decide) (by decide) (by decide)
  exact ⟨⟨h4.mpr (by decide), h6.mpr (by decide)⟩, h5.1⟩

/-- C9: an in-range entry whose stored u32 size is zero yields a
present, zero-length byte sequence, while out-of-range block numbers
yield the absent result; the two results differ. -/
theorem get_data_zero_size (log : HistoryLog) (n : Nat) (e : LogEntry) (rest : List Nat)
    (hentry : log.get_entry n = some e) (hdec : decU32 e.payload = some (0, rest))
    (h : ¬(n < log.begin_block ∨ log.end_block ≤ n)) :
    get_data log n = .ok (some []) ∧
    (∀ m, (m < log.begin_block ∨ log.end_block ≤ m) → get_data log m = .ok none) ∧
    (Except.ok (some ([] : List Nat)) ≠ (Except.ok none : Except Unit (Option (List Nat)))) := by
  refine ⟨?_, ?_, by simp⟩
  · rw [get_data, if_neg h, hentry]
    simp [readPayload, readEntryBytes, hdec]
  · intro m hm
    simp [get_data, hm]

/-- C9 witness: block 5 of a log whose entry is a bare zero size yields
present-empty; block 4 yields absent. -/
theorem get_data_zero_size_witness :
    get_data logZero 5 = .ok (some []) ∧ get_data logZero 4 = .ok none := by
  have h := get_data_zero_size logZero 5 ⟨1, 0, [0, 0, 0, 0]⟩ []
    (by decide) (by decide) (by decide)
  exact ⟨h.1, h.2.1 4 (by decide)⟩

/-- C6 (code bug): `get_block` never leaves the result absent — when the
block store has the block it packs it, and when the store lacks the
block it dereferences the null fetch result (modelled `.error
.null_deref`) instead of completing with an absent field. -/
theorem get_block_spec (fetch : Nat → Option (List Nat)) (pb : List Nat → List Nat) (n : Nat) :
    (fetch n = none → get_block fetch pb n = .error .null_deref) ∧
    (∀ blk, fetch n = some blk → get_block fetch pb n = .ok (some (pb blk))) := by
  constructor
  · intro h
    simp [get_block, h]
  · intro blk h
    simp [get_block, h]

/-- C6 witness: on an empty block store the handler crashes at block 5;
on a store holding bytes it returns them packed. -/
theorem get_block_spec_witness :
    get_block (fun _ => none) (fun b => b) 5 = .error .null_deref ∧
    get_block (fun _ => some [1, 2]) (fun b => b) 5 = .ok (some [1, 2]) :=
  ⟨(get_block_spec (fun _ => none) (fun b => b) 5).1 rfl,
   (get_block_spec (fun _ => some [1, 2]) (fun b => b) 5).2 [1, 2] rfl⟩

/-- C8: the size guard accepts exactly the sizes up to `2^32 - 1`, and
when the serialized traces (resp. deltas) exceed that bound the store
rejects with the size assertion before any log entry is written. -/
theorem size_guard_spec (n : Nat) (pT : List Trace → List Nat)
    (pD : List TableDelta → List Nat) (pack pack_c : TableRow → List Nat)
    (db : Database) (st : PluginState) (b : BlockSummary) :
    (fits_u32 n = true ↔ n ≤ 4294967295) ∧
    (fits_u32 (pT (collect_block_traces st.traces b.trxs)).length = false →
      store_traces pT st b = .error .too_big) ∧
    (∀ deltas, collectDeltas (dbTables db pack pack_c) (freshFlag st) = .ok deltas →
      fits_u32 (pD deltas).length = false →
      store_chain_state pD pack pack_c db st b = .error .too_big) := by
  refine ⟨fits_u32_true_iff n, ?_, ?_⟩
  · intro h
    simp [store_traces, h]
  · intro deltas hd hf
    unfold store_chain_state
    rw [hd]
    simp [hf]

/-- C8 witness: size 4 passes the guard; a 2^32-byte serialization of
the traces (resp. deltas) of block 2 is rejected with the size
assertion. -/
theorem size_guard_spec_witness :
    fits_u32 4 = true ∧
    store_traces bigPT st00 blk2 = .error .too_big ∧
    store_chain_state bigPD pkData pkData emptyDb st00 blk2 = .error .too_big := by
  have h := size_guard_spec 4 bigPT bigPD pkData pkData emptyDb st00 blk2
  have hlen : bigBin.length = 4294967296 := List.length_replicate 4294967296 0
  have hbig : fits_u32 bigBin.length = false := by
    rw [hlen]
    decide
  exact ⟨h.1.mpr (by decide), h.2.1 hbig, h.2.2 [] (by rfl) hbig⟩

/-- C10: the trace buffer keys stay distinct under `on_applied_transaction`
(each transaction id maps to at most one trace), and of two receipted
traces with the same id applied in sequence, lookup afterwards yields
the later one. -/
theorem trace_buffer_overwrite (st : PluginState) (p1 p2 : Trace)
    (h1 : p1.has_receipt = true) (h2 : p2.has_receipt = true) (hid : p2.id = p1.id) :
    lookupTrace (on_applied_transaction (on_applied_transaction st p1) p2).traces p1.id
      = some p2 ∧
    ((st.traces.map Prod.fst).Nodup →
      ((on_applied_transaction st p1).traces.map Prod.fst).Nodup) := by
  constructor
  · simp only [on_applied_transaction, h1, h2, if_true]
    rw [hid]
    exact lookupTrace_mapInsert_self _ _ _
  · intro hnd
    simp only [on_applied_transaction, h1, if_true]
    exact nodup_keys_mapInsert _ _ _ hnd

theorem mapM_liveRowEntry_pairs (idx : TableIndex) (pack : TableRow → List Nat) :
    ∀ (l : List (Nat × TableRow)), (∀ p ∈ l, (getRow idx p.1).isSome) →
      List.mapM (fun p => liveRowEntry idx pack p.1) l =
        .ok (l.map (fun p => (true, pack (getRowD idx p.1)))) := by
  intro l
  induction l with
  | nil => intro _; rfl
  | cons a rest ih =>
    intro h
    obtain ⟨row, hrow⟩ := Option.isSome_iff_exists.mp (h a (by simp))
    have h1 : liveRowEntry idx pack a.1 = .ok (true, pack (getRowD idx a.1)) := by
      simp [liveRowEntry, getRowD, hrow]
    rw [List.mapM_cons, h1, ih (fun b hb => h b (by simp [hb]))]
    rfl

theorem mapM_liveRowEntry_ids (idx : TableIndex) (pack : TableRow → List Nat) :
    ∀ (l : List Nat), (∀ i ∈ l, (getRow idx i).isSome) →
      List.mapM (fun i => liveRowEntry idx pack i) l =
        .ok (l.map (fun i => (true, pack (getRowD idx i)))) := by
  intro l
  induction l with
  | nil => intro _; rfl
  | cons a rest ih =>
    intro h
    obtain ⟨row, hrow⟩ := Option.isSome_iff_exists.mp (h a (by simp))
    have h1 : liveRowEntry idx pack a = .ok (true, pack (getRowD idx a)) := by
      simp [liveRowEntry, getRowD, hrow]
    rw [List.mapM_cons, h1, ih (fun b hb => h b (by simp [hb]))]
    rfl

/-- C3: with a non-empty chain-state log, for a table whose top undo
frame exists: an all-empty frame emits no delta; otherwise exactly one
delta is emitted whose rows are the current live rows for `old_values`
(`present = true`), then the current live rows for `new_ids`
(`present = true`), then the captured pre-images for `removed_values`
(`present = false`), given that every referenced id is live. -/
theorem process_table_update_spec (name : String) (idx : TableIndex)
    (pack : TableRow → List Nat) (undo : UndoFrame)
    (htop : idx.stack.getLast? = some undo) :
    ((undo.old_values.isEmpty && undo.new_ids.isEmpty && undo.removed_values.isEmpty) = true →
      process_table name idx pack false = .ok none) ∧
    ((undo.old_values.isEmpty && undo.new_ids.isEmpty && undo.removed_values.isEmpty) = false →
      (∀ i ∈ undo.old_values.map Prod.fst ++ undo.new_ids, (getRow idx i).isSome) →
      process_table name idx pack false = .ok (some
        { name := name
          rows := undo.old_values.map (fun p => (true, pack (getRowD idx p.1)))
               ++ undo.new_ids.map (fun i => (true, pack (getRowD idx i)))
               ++ undo.removed_values.map (fun p => (false, pack p.2)) })) := by
  have hstep : process_table name idx pack false =
      (if undo.old_values.isEmpty && undo.new_ids.isEmpty && undo.removed_values.isEmpty then
        Except.ok none
      else
        match undo.old_values.mapM (fun p => liveRowEntry idx pack p.1) with
        | .error e => .error e
        | .ok olds =>
          match undo.new_ids.mapM (fun i => liveRowEntry idx pack i) with
          | .error e => .error e
          | .ok news =>
            .ok (some { name := name,
                        rows := olds ++ news
                             ++ undo.removed_values.map (fun p => ((false : Bool), pack p.2)) })) := by
    unfold process_table
    rw [htop]
    rfl
  constructor
  · intro hemp
    rw [hstep, if_pos hemp]
  · intro hemp hlive
    have holds := mapM_liveRowEntry_pairs idx pack undo.old_values
      (fun p hp => hlive p.1 (List.mem_append_left _ (List.mem_map_of_mem _ hp)))
    have hnews := mapM_liveRowEntry_ids idx pack undo.new_ids
      (fun i hi => hlive i (List.mem_append_right _ hi))
    rw [hstep, if_neg (by simp [hemp]), holds, hnews]

/-- C3 witness: rows 1 and 2 live, frame records row 1 modified, row 2
inserted, row 3 removed with pre-image `[7]`; the delta carries the
post-images of rows 1 and 2 (`present = true`) then the pre-image of
row 3 (`present = false`). -/
theorem process_table_update_witness :
    process_table "account" idxUpd pkData false =
      .ok (some { name := "account", rows := [(true, [5]), (true, [6]), (false, [7])] }) := by
  have h := (process_table_update_spec "account" idxUpd pkData
    ⟨[(1, ⟨1, [4]⟩)], [2], [(3, ⟨3, [7]⟩)]⟩ (by rfl)).2 (by decide) (by decide)
  exact h.trans (by rfl)

theorem collectDeltas_fresh (tables : List (String × TableIndex × (TableRow → List Nat))) :
    collectDeltas tables true =
      .ok (tables.filterMap (fun t =>
        if t.2.1.rows.isEmpty then none
        else some { name := t.1, rows := t.2.1.rows.map (fun r => (r.id != 0, t.2.2 r)) })) := by
  induction tables with
  | nil => rfl
  | cons t rest ih =>
    by_cases h : t.2.1.rows = []
    · have hp : process_table t.1 t.2.1 t.2.2 true = .ok none := by
        simp [process_table, h]
      simp only [collectDeltas]
      rw [hp, ih]
      simp [List.filterMap_cons, h]
    · have hp : process_table t.1 t.2.1 t.2.2 true =
          .ok (some { name := t.1, rows := t.2.1.rows.map (fun r => (r.id != 0, t.2.2 r)) }) := by
        simp [process_table, h]
      simp only [collectDeltas]
      rw [hp, ih]
      simp [List.filterMap_cons, h]

/-- C2 (amended): when the chain-state log is empty (the code's `fresh`
condition `begin_block == end_block`), the delta extraction emits
exactly one delta per table whose index is non-empty, in the declared
fixed table order, covering every live row in index order — but each
row's `present` flag is the C++ bool conversion of the live row id,
i.e. `id != 0`, not uniformly `true`. -/
theorem store_chain_state_fresh_spec (db : Database) (pk pkc : TableRow → List Nat)
    (st : PluginState) (h : st.chain_state_log.begin_block = st.chain_state_log.end_block) :
    collectDeltas (dbTables db pk pkc) (freshFlag st) =
      .ok ((dbTables db pk pkc).filterMap (fun t =>
        if t.2.1.rows.isEmpty then none
        else some { name := t.1, rows := t.2.1.rows.map (fun r => (r.id != 0, t.2.2 r)) })) := by
  have hf : freshFlag st = true := by simp [freshFlag, h]
  rw [hf]
  exact collectDeltas_fresh _

/-- C2 counterexample: a fresh chain-state log and an account table
whose only live row has id 0 (the first object of a chainbase table)
produce a delta whose row has `present = false`, refuting "every emitted
row has present = true". -/
theorem store_chain_state_fresh_counterexample :
    collectDeltas (dbTables dbIdZero pkData pkData) (freshFlag st00) =
      .ok [{ name := "account", rows := [(false, [7])] }] ∧ (false : Bool) ≠ true :=
  ⟨by rfl, by decide⟩

/-- C2 witness: fresh snapshot of a database with account rows of ids 1
and 2 and a permission row of id 5: one delta per non-empty table, in
the declared order, with all rows present. -/
theorem store_chain_state_fresh_witness :
    collectDeltas (dbTables dbFresh pkData pkData) (freshFlag st00) =
      .ok [{ name := "account", rows := [(true, [3]), (true, [4])] },
           { name := "permission", rows := [(true, [6])] }] :=
  (store_chain_state_fresh_spec dbFresh pkData pkData st00 rfl).trans (by rfl)

/-- C10 witness: applying two receipted traces with id 7 leaves the
later one in the buffer; the keys stay distinct. -/
theorem trace_buffer_overwrite_witness :
    lookupTrace (on_applied_transaction (on_applied_transaction st00 ⟨7, true, [1]⟩)
      ⟨7, true, [2]⟩).traces 7 = some ⟨7, true, [2]⟩ ∧
    ((on_applied_transaction st00 ⟨7, true, [1]⟩).traces.map Prod.fst).Nodup :=
  ⟨(trace_buffer_overwrite st00 ⟨7, true, [1]⟩ ⟨7, true, [2]⟩ rfl rfl rfl).1,
   (trace_buffer_overwrite st00 ⟨7, true, [1]⟩ ⟨7, true, [2]⟩ rfl rfl rfl).2 (by simp [st00])⟩

theorem sessionStep_inv (s : SessionQ) (op : SessionOp) (E : List (List Nat))
    (h1 : s.written ++ (if s.sending then s.send_queue.tail else s.send_queue) = E)
    (h2 : s.sending = true → s.send_queue ≠ [] ∧ s.written.getLast? = s.send_queue.head?) :
    (sessionStep s op).written ++
      (if (sessionStep s op).sending then (sessionStep s op).send_queue.tail
       else (sessionStep s op).send_queue) = E ++ enqueuedOf [op] ∧
    ((sessionStep s op).sending = true →
      (sessionStep s op).send_queue ≠ [] ∧
      (sessionStep s op).written.getLast? = (sessionStep s op).send_queue.head?) := by
  obtain ⟨snd, abi, q, w⟩ := s
  cases op with
  | enqueue m =>
    cases snd with
    | true =>
      obtain ⟨hne, hlast⟩ := h2 rfl
      rcases q with _ | ⟨a, q⟩
      · exact absurd rfl hne
      · simp only [if_pos] at h1
        subst h1
        simp [sessionStep, trySend, enqueuedOf, hlast]
    | false =>
      simp only [if_neg] at h1
      subst h1
      rcases q with _ | ⟨a, q⟩
      · simp [sessionStep, trySend, enqueuedOf, List.getLast?_concat]
      · simp [sessionStep, trySend, enqueuedOf, List.getLast?_concat]
  | complete =>
    cases snd with
    | false =>
      subst h1
      refine ⟨by simp [sessionStep, enqueuedOf], ?_⟩
      intro hcon
      simp [sessionStep] at hcon
    | true =>
      obtain ⟨hne, hlast⟩ := h2 rfl
      rcases q with _ | ⟨a, q⟩
      · exact absurd rfl hne
      · simp only [if_pos] at h1
        subst h1
        rcases q with _ | ⟨b, q⟩
        · simp [sessionStep, trySend, enqueuedOf]
        · simp [sessionStep, trySend, enqueuedOf, List.getLast?_concat]

theorem session_fifo_aux :
    ∀ (ops : List SessionOp) (s : SessionQ) (E : List (List Nat)),
    s.written ++ (if s.sending then s.send_queue.tail else s.send_queue) = E →
    (s.sending = true → s.send_queue ≠ [] ∧ s.written.getLast? = s.send_queue.head?) →
    ((ops.foldl sessionStep s).written ++
      (if (ops.foldl sessionStep s).sending then (ops.foldl sessionStep s).send_queue.tail
       else (ops.foldl sessionStep s).send_queue) = E ++ enqueuedOf ops ∧
     ((ops.foldl sessionStep s).sending = true →
       (ops.foldl sessionStep s).send_queue ≠ [] ∧
       (ops.foldl sessionStep s).written.getLast? = (ops.foldl sessionStep s).send_queue.head?))
  | [], s, E, h1, h2 => by
    simp only [List.foldl_nil, enqueuedOf, List.filterMap_nil, List.append_nil]
    exact ⟨h1, h2⟩
  | op :: rest, s, E, h1, h2 => by
    have hstep := sessionStep_inv s op E h1 h2
    have hrec := session_fifo_aux rest (sessionStep s op) (E ++ enqueuedOf [op])
      hstep.1 hstep.2
    have hE : enqueuedOf (op :: rest) = enqueuedOf [op] ++ enqueuedOf rest := by
      cases op <;> simp [enqueuedOf]
    simp only [List.foldl_cons]
    exact ⟨by rw [hrec.1, hE, List.append_assoc], hrec.2⟩

/-- C7: for every sequence of enqueue/write-completion events of a
session, the frames issued to the socket followed by the queued
not-yet-issued frames equal exactly the enqueued responses in order (so
emission order is request order, with no loss, duplication or
reordering); moreover while a write is outstanding the queue is
non-empty and its head is the frame last issued, and the head is only
removed by the completion handler before the next write is issued. -/
theorem session_send_fifo (ops : List SessionOp) :
    (runSession ops).written ++
      (if (runSession ops).sending then (runSession ops).send_queue.tail
       else (runSession ops).send_queue) = enqueuedOf ops ∧
    ((runSession ops).sending = true →
      (runSession ops).send_queue ≠ [] ∧
      (runSession ops).written.getLast? = (runSession ops).send_queue.head?) := by
  have h := session_fifo_aux ops sessionInit [] rfl (by intro h; simp [sessionInit] at h)
  simpa [runSession] using h

/-- C7 witness: enqueue `[1]`, enqueue `[2]`, complete the first write:
the issued frames are `[1], [2]` in order, one write is outstanding, and
the queue head is the in-flight frame. -/
theorem session_send_fifo_witness :
    (runSession ops3).written ++
      (if (runSession ops3).sending then (runSession ops3).send_queue.tail
       else (runSession ops3).send_queue) = enqueuedOf ops3 ∧
    (runSession ops3).send_queue ≠ [] ∧
    (runSession ops3).written.getLast? = (runSession ops3).send_queue.head? :=
  ⟨(session_send_fifo ops3).1, (session_send_fifo ops3).2 (by rfl)⟩

theorem store_traces_ok (pT : List Trace → List Nat) (st st2 : PluginState) (b : BlockSummary)
    (h : store_traces pT st b = .ok st2) :
    st2.traces = [] ∧ st2.block_state_log = st.block_state_log ∧
    st2.chain_state_log = st.chain_state_log ∧
    st.trace_log.write_entry
      ⟨b.block_num, b.block_id, 4 + (pT (collect_block_traces st.traces b.trxs)).length⟩
      b.previous
      (encU32 (pT (collect_block_traces st.traces b.trxs)).length
        ++ pT (collect_block_traces st.traces b.trxs)) = .ok st2.trace_log := by
  unfold store_traces at h
  dsimp only at h
  split at h
  · split at h
    next log2 hw =>
      injection h with h
      subst h
      exact ⟨rfl, rfl, rfl, hw⟩
    next e hw => simp at h
  · simp at h

theorem store_chain_state_ok (pD : List TableDelta → List Nat)
    (pk pkc : TableRow → List Nat) (db : Database) (st st' : PluginState) (b : BlockSummary)
    (h : store_chain_state pD pk pkc db st b = .ok st') :
    ∃ deltas, collectDeltas (dbTables db pk pkc) (freshFlag st) = .ok deltas ∧
      st'.traces = st.traces ∧ st'.block_state_log = st.block_state_log ∧
      st'.trace_log = st.trace_log ∧
      st.chain_state_log.write_entry
        ⟨b.block_num, b.block_id, 4 + (pD deltas).length⟩ b.previous
        (encU32 (pD deltas).length ++ pD deltas) = .ok st'.chain_state_log := by
  unfold store_chain_state at h
  split at h
  next e hd => simp at h
  next deltas hd =>
    split at h
    · split at h
      next log2 hw =>
        injection h with h
        subst h
        exact ⟨deltas, hd, rfl, rfl, rfl, hw⟩
      next e hw => simp at h
    · simp at h

theorem on_accepted_block_ok (pT : List Trace → List Nat) (pD : List TableDelta → List Nat)
    (pk pkc : TableRow → List Nat) (db : Database) (st : PluginState) (b : BlockSummary)
    (st' : PluginState) (h : on_accepted_block pT pD pk pkc db st b = .ok st') :
    ∃ st1, store_traces pT st b = .ok st1 ∧ store_chain_state pD pk pkc db st1 b = .ok st' := by
  unfold on_accepted_block store_block_state at h
  split at h
  next e h1 => simp at h
  next st1 h1 => exact ⟨st1, h1, h⟩

/-- C4: for every accepted block and every prior state of the plugin,
when `on_accepted_block` returns normally the transaction trace buffer
is empty: `store_traces` clears it and `store_chain_state` does not
touch it. -/
theorem on_accepted_block_clears_traces (pT : List Trace → List Nat)
    (pD : List TableDelta → List Nat) (pk pkc : TableRow → List Nat) (db : Database)
    (st : PluginState) (b : BlockSummary) (st' : PluginState)
    (h : on_accepted_block pT pD pk pkc db st b = .ok st') : st'.traces = [] := by
  obtain ⟨st1, h1, h2⟩ := on_accepted_block_ok pT pD pk pkc db st b st' h
  obtain ⟨ht1, _, _, _⟩ := store_traces_ok pT st st1 b h1
  obtain ⟨deltas, _, htr, _, _, _⟩ := store_chain_state_ok pD pk pkc db st1 st' b h2
  rw [htr, ht1]

/-- C4 witness: starting from a buffer holding the trace of transaction
9 and processing block 2 (which carries transaction 9), the call
succeeds and the buffer is empty afterwards. -/
theorem on_accepted_block_clears_traces_witness :
    on_accepted_block nilPT nilPD pkData pkData emptyDb st9 blk9 = .ok afterBlk2 ∧
    afterBlk2.traces = [] :=
  ⟨by rfl,
   on_accepted_block_clears_traces nilPT nilPD pkData pkData emptyDb st9 blk9 afterBlk2
     (by rfl)⟩

theorem write_entry_shape_eq (log : HistoryLog) (h : HistoryLogHeader) (prev : Nat)
    (payload : List Nat) :
    (log.write_entry h prev payload).map HistoryLog.shape =
      write_shape log.begin_block (logIds log) h.block_num h.block_id prev := by
  have hemp : (logIds log).isEmpty = log.entries.isEmpty := by
    rcases hl : log.entries with _ | ⟨a, l⟩ <;> simp [logIds, hl]
  have hlen : (logIds log).length = log.entries.length := by simp [logIds]
  have hkeep : ∀ k, ((logIds log).take k).isEmpty = (log.entries.take k).isEmpty := by
    intro k
    rw [logIds, ← List.map_take]
    rcases ht : log.entries.take k with _ | ⟨a, l⟩ <;> simp [ht]
  unfold HistoryLog.write_entry write_shape HistoryLog.end_block
  rw [hemp, hlen, hkeep]
  split_ifs <;> first
    | rfl
    | simp [HistoryLog.shape, logIds, Except.map]

theorem write_entry_append (log : HistoryLog) (h : HistoryLogHeader) (prev : Nat)
    (p : List Nat)
    (hc : log.entries = [] ∨
      (h.block_num = log.end_block ∧ (logIds log).getLast? = some prev)) :
    ∃ log2, log.write_entry h prev p = .ok log2 ∧ log2.end_block = h.block_num + 1 := by
  by_cases he : log.entries.isEmpty
  · refine ⟨⟨h.block_num, [⟨h.block_id, prev, p⟩]⟩, ?_, by simp [HistoryLog.end_block]⟩
    unfold HistoryLog.write_entry
    rw [if_pos he]
  · rcases hc with hc | ⟨hnum, hlast⟩
    · exact absurd (by simp [hc]) he
    · have hlen : 0 < log.entries.length := by
        rcases hl : log.entries with _ | ⟨a, l⟩
        · rw [hl] at he; simp at he
        · simp [hl]
      obtain ⟨m, hm⟩ : ∃ m, log.entries.length = m + 1 := ⟨log.entries.length - 1, by omega⟩
      have hilen : (logIds log).length = m + 1 := by simp [logIds, hm]
      have hidx : (logIds log).getD m 0 = prev := by
        rw [List.getLast?_eq_getElem?, hilen] at hlast
        rw [List.getD_eq_getElem?_getD]
        simp only [Nat.add_sub_cancel] at hlast
        rw [hlast]
        rfl
      have hargs : h.block_num - log.begin_block = m + 1 := by
        rw [hnum]
        unfold HistoryLog.end_block
        omega
      have hkeep : walkSlot (logIds log) prev (h.block_num - log.begin_block) = m + 1 := by
        rw [hargs]
        simp only [walkSlot, hidx, beq_self_eq_true, if_true]
      have hgap : ¬(log.end_block < h.block_num) := by rw [hnum]; omega
      have hund : ¬(h.block_num < log.begin_block) := by
        rw [hnum]
        unfold HistoryLog.end_block
        omega
      have htake :
          log.entries.take (walkSlot (logIds log) prev (h.block_num - log.begin_block)) =
            log.entries := by
        rw [hkeep, ← hm, List.take_length]
      refine ⟨⟨log.begin_block, log.entries ++ [⟨h.block_id, prev, p⟩]⟩, ?_, ?_⟩
      · unfold HistoryLog.write_entry
        rw [if_neg he, if_neg hgap, if_neg hund, htake, if_neg he]
      · unfold HistoryLog.end_block at hnum ⊢
        simp only [List.length_append, List.length_cons, List.length_nil, hm]
        omega

/-- C1 (amended): given that the trace log and the chain-state log have
the same shape (`begin_block` and stored id sequence), any normal return
of `on_accepted_block` preserves that equality — so those two logs share
the same `[begin_block, end_block)` and advance together, and on a
normal append (empty log, or block number equal to `end_block` with
matching stored parent id) both `end_block`s become `block_num + 1`;
the block-state log, however, is left completely unchanged, because
`store_block_state` is an empty stub. -/
theorem on_accepted_block_log_alignment (pT : List Trace → List Nat)
    (pD : List TableDelta → List Nat) (pk pkc : TableRow → List Nat) (db : Database)
    (st : PluginState) (b : BlockSummary) (st' : PluginState)
    (hsh : st.trace_log.shape = st.chain_state_log.shape)
    (h : on_accepted_block pT pD pk pkc db st b = .ok st') :
    st'.block_state_log = st.block_state_log ∧
    st'.trace_log.shape = st'.chain_state_log.shape ∧
    ((st.trace_log.entries = [] ∨
       (b.block_num = st.trace_log.end_block ∧
        (logIds st.trace_log).getLast? = some b.previous)) →
      st'.trace_log.end_block = b.block_num + 1 ∧
      st'.chain_state_log.end_block = b.block_num + 1) := by
  obtain ⟨st1, h1, h2⟩ := on_accepted_block_ok pT pD pk pkc db st b st' h
  obtain ⟨ht1, hbl1, hcl1, hw1⟩ := store_traces_ok pT st st1 b h1
  obtain ⟨deltas, hd, htr2, hbl2, htl2, hw2⟩ := store_chain_state_ok pD pk pkc db st1 st' b h2
  rw [hcl1] at hw2
  have hbb : st.trace_log.begin_block = st.chain_state_log.begin_block :=
    congrArg Prod.fst hsh
  have hii : logIds st.trace_log = logIds st.chain_state_log := congrArg Prod.snd hsh
  refine ⟨by rw [hbl2, hbl1], ?_, ?_⟩
  · have e1 := write_entry_shape_eq st.trace_log
      ⟨b.block_num, b.block_id, 4 + (pT (collect_block_traces st.traces b.trxs)).length⟩
      b.previous
      (encU32 (pT (collect_block_traces st.traces b.trxs)).length
        ++ pT (collect_block_traces st.traces b.trxs))
    have e2 := write_entry_shape_eq st.chain_state_log
      ⟨b.block_num, b.block_id, 4 + (pD deltas).length⟩
      b.previous (encU32 (pD deltas).length ++ pD deltas)
    rw [hw1] at e1
    rw [hw2] at e2
    rw [hbb, hii] at e1
    have hshapes : Except.ok (ε := LogErr) st1.trace_log.shape =
        Except.ok st'.chain_state_log.shape := by
      calc Except.ok (ε := LogErr) st1.trace_log.shape
          = (Except.ok st1.trace_log : Except LogErr HistoryLog).map HistoryLog.shape := rfl
        _ = write_shape st.chain_state_log.begin_block (logIds st.chain_state_log)
              b.block_num b.block_id b.previous := e1
        _ = (Except.ok st'.chain_state_log : Except LogErr HistoryLog).map
              HistoryLog.shape := e2.symm
        _ = Except.ok st'.chain_state_log.shape := rfl
    rw [htl2]
    injection hshapes
  · intro hc
    obtain ⟨log2, hwA, hend2⟩ := write_entry_append st.trace_log
      ⟨b.block_num, b.block_id, 4 + (pT (collect_block_traces st.traces b.trxs)).length⟩
      b.previous
      (encU32 (pT (collect_block_traces st.traces b.trxs)).length
        ++ pT (collect_block_traces st.traces b.trxs)) hc
    have hcC : st.chain_state_log.entries = [] ∨
        (b.block_num = st.chain_state_log.end_block ∧
         (logIds st.chain_state_log).getLast? = some b.previous) := by
      have hlenEq : st.chain_state_log.entries.length = st.trace_log.entries.length := by
        have := congrArg List.length hii
        simpa [logIds] using this.symm
      rcases hc with hc | ⟨hn, hl⟩
      · left
        have hids : logIds st.chain_state_log = [] := by rw [← hii]; simp [logIds, hc]
        simpa [logIds] using hids
      · right
        refine ⟨?_, by rw [← hii]; exact hl⟩
        unfold HistoryLog.end_block at hn ⊢
        omega
    obtain ⟨log3, hwB, hend3⟩ := write_entry_append st.chain_state_log
      ⟨b.block_num, b.block_id, 4 + (pD deltas).length⟩
      b.previous (encU32 (pD deltas).length ++ pD deltas) hcC
    have hlog2 : st1.trace_log = log2 := by
      have hq := hw1.symm.trans hwA
      injection hq
    have hlog3 : st'.chain_state_log = log3 := by
      have hq := hw2.symm.trans hwB
      injection hq
    exact ⟨by rw [htl2, hlog2]; exact hend2, by rw [hlog3]; exact hend3⟩

/-- C1 counterexample: from a cold start (all three logs empty), one
accepted block advances the trace and chain-state logs to
`end_block = 3` while the block-state log stays at `end_block = 0`
(`store_block_state` is a stub), so the three logs do not share the same
range after `on_accepted_block`. -/
theorem on_accepted_block_not_aligned :
    on_accepted_block nilPT nilPD pkData pkData emptyDb st00 blk2 = .ok afterBlk2 ∧
    afterBlk2.block_state_log.end_block = 0 ∧
    afterBlk2.trace_log.end_block = 3 ∧
    afterBlk2.chain_state_log.end_block = 3 ∧
    (0 : Nat) ≠ 3 :=
  ⟨by rfl, by rfl, by rfl, by rfl, by decide⟩

/-- C1 witness: the cold-start run of the amended theorem — trace and
chain-state logs end aligned at block 3, the block-state log is exactly
the pre-state one. -/
theorem on_accepted_block_log_alignment_witness :
    afterBlk2.block_state_log = st00.block_state_log ∧
    afterBlk2.trace_log.shape = afterBlk2.chain_state_log.shape ∧
    afterBlk2.trace_log.end_block = 3 :=
  have h := on_accepted_block_log_alignment nilPT nilPD pkData pkData emptyDb st00 blk2
    afterBlk2 rfl (by rfl)
  ⟨h.1, h.2.1, (h.2.2 (Or.inl rfl)).1⟩

end StateHistory
